import Mathlib

/-!
Shallow embedding of `process_channel_and_forwarding_data.py`.

The module has two parts:
* `get_tx_timestamp`: the timestamp resolver with its process-wide cache,
  bounded retry loop and exponential backoff;
* `process_channel_and_forwarding_data`: the two aggregation passes
  (channel pass, forwarding pass) followed by the metric derivation and the
  stable descending sort.

Timestamps are modelled as `Int` seconds since the epoch
(`datetime.fromtimestamp` is the identity on that representation), monetary
amounts as `Int`, and the float metrics as `ℚ`. Python exceptions that the
code lets escape are modelled with `Except`. The external service is an
oracle `svc : Nat → Resp` giving the response to the n-th HTTP call of one
resolver invocation.
-/

/-- Shape of the `status` field of the JSON body returned by the service:
absent, present but not a mapping (so `.get` raises `AttributeError`),
or a mapping with a truthiness flag for `confirmed` and an optional
`block_time`. -/
inductive StatusField where
  | absent : StatusField
  | nonDict : StatusField
  | dict (confirmed : Bool) (block_time : Option Int) : StatusField
deriving DecidableEq, Repr

/-- One response of the external service: either a
`requests.exceptions.RequestException` (transport error, timeout, or a
non-success HTTP status raised by `raise_for_status`), or a decoded JSON
body described by its truthiness and its `status` field. -/
inductive Resp where
  | fail : Resp
  | ok (truthy : Bool) (status : StatusField) : Resp
deriving DecidableEq, Repr

/-- Python exceptions that `get_tx_timestamp` does not catch. -/
inductive PyErr where
  | keyError : PyErr
  | attributeError : PyErr
deriving DecidableEq, Repr

/-- Truthiness test `tx_data and space in tx_data and tx_data[s].get(c)`:
evaluates to a boolean or raises `AttributeError` when the `status` value is
not a mapping. -/
def condEval (truthy : Bool) (st : StatusField) : Except PyErr Bool :=
  if !truthy then .ok false
  else
    match st with
    | .absent => .ok false
    | .nonDict => .error .attributeError
    | .dict confirmed _ => .ok confirmed

/-- Accumulated observable outcome of the retry loop: the returned value (or
escaped exception), the number of HTTP calls issued, and the list of
`time.sleep` durations in order. -/
structure FetchOut where
  result : Except PyErr (Option Int)
  calls : Nat
  sleeps : List Nat
deriving Repr

/-- The literal `max_retries = 3` of the source. -/
def max_retries : Nat := 3

/-- The `for attempt in range(max_retries)` loop of `get_tx_timestamp`,
entered at index `attempt` with `remaining` iterations left. A transport
failure sleeps `2 ^ attempt` and retries while `attempt < max_retries - 1`;
a decoded body is inspected once and never retried. Falling off the loop
returns `None` (the line-47 safeguard). -/
def runAttempts (svc : Nat → Resp) : Nat → Nat → FetchOut
  | _, 0 => ⟨.ok none, 0, []⟩
  | attempt, remaining + 1 =>
    match svc attempt with
    | .fail =>
      if attempt < max_retries - 1 then
        let rest := runAttempts svc (attempt + 1) remaining
        ⟨rest.result, rest.calls + 1, 2 ^ attempt :: rest.sleeps⟩
      else
        ⟨.ok none, 1, []⟩
    | .ok truthy st =>
      match condEval truthy st with
      | .error e => ⟨.error e, 1, []⟩
      | .ok true =>
        match st with
        | .dict _ (some t) => ⟨.ok (some t), 1, []⟩
        | _ => ⟨.error .keyError, 1, []⟩
      | .ok false => ⟨.ok none, 1, []⟩

/-- Association-list lookup with string keys, modelling `dict` access. -/
def lookupPD {β : Type} (a : String) : List (String × β) → Option β
  | [] => none
  | (k, d) :: rest => if k = a then some d else lookupPD a rest

/-- Observable outcome of one `get_tx_timestamp(txid)` call: result (or
escaped exception), cache after the call, number of HTTP calls, sleeps. -/
structure ResolveOut where
  result : Except PyErr (Option Int)
  cache : List (String × Int)
  calls : Nat
  sleeps : List Nat
deriving Repr

/-- `get_tx_timestamp`: cache hit returns immediately with no HTTP call;
otherwise the retry loop runs, and only a confirmed `block_time` is stored
in the cache. -/
def get_tx_timestamp (txid : String) (cache : List (String × Int))
    (svc : Nat → Resp) : ResolveOut :=
  match lookupPD txid cache with
  | some t => ⟨.ok (some t), cache, 0, []⟩
  | none =>
    let out := runAttempts svc 0 max_retries
    match out.result with
    | .ok (some t) => ⟨.ok (some t), (txid, t) :: cache, out.calls, out.sleeps⟩
    | r => ⟨r, cache, out.calls, out.sleeps⟩

example :
    get_tx_timestamp "t" [] (fun _ => .fail) =
      ⟨.ok none, [], 3, [1, 2]⟩ := rfl

example :
    get_tx_timestamp "t" [] (fun _ => .ok true (.dict true (some 7))) =
      ⟨.ok (some 7), [("t", 7)], 1, []⟩ := rfl

example :
    get_tx_timestamp "t" [] (fun _ => .ok true (.dict true none)) =
      ⟨.error .keyError, [], 1, []⟩ := rfl

example :
    get_tx_timestamp "t" [] (fun _ => .ok true .nonDict) =
      ⟨.error .attributeError, [], 1, []⟩ := rfl

example :
    get_tx_timestamp "t" [("t", 5)] (fun _ => .fail) =
      ⟨.ok (some 5), [("t", 5)], 0, []⟩ := rfl

/-- An input value destined for `int(...)` coercion: either coercible to an
integer (Python ints and numeric strings, sign included) or a value on which
`int` raises `ValueError`/`TypeError`. -/
inductive IntLike where
  | i (n : Int) : IntLike
  | bad : IntLike
deriving DecidableEq, Repr

/-- The coercion `int(record.get(key, 0))` wrapped in
`try/except (ValueError, TypeError)`: a missing field defaults to `0`,
a coercible value keeps its integer value (negatives included), and a
coercion failure is caught and defaults to `0`. -/
def coerceInt : Option IntLike → Int
  | none => 0
  | some (.i n) => n
  | some .bad => 0

/-- Python truthiness of an optional string field: `None` and `""` are
falsy. Returns the name when the `if field:` guard passes. -/
def aliasKey : Option String → Option String
  | none => none
  | some a => if a = "" then none else some a

/-- One entry of the `listChannels` snapshot, with the three fields the
code reads. -/
structure ChannelRecord where
  peer_alias : Option String
  channel_point : Option String
  local_balance : Option IntLike
deriving Repr

/-- One entry of the `fwdingHistory` snapshot. -/
structure ForwardingEvent where
  peer_alias_in : Option String
  peer_alias_out : Option String
  fee_msat : Option IntLike
deriving Repr

/-- The per-peer record stored in `peer_data`. Ages are in seconds
(`timedelta.total_seconds`), fees in milli-satoshi. The last two fields are
initialised but never read before the metrics stage recomputes them. -/
structure PeerData where
  total_channel_age_seconds : Int
  forwards : Nat
  total_fees_msat : Int
  is_open : Bool
  local_balance : Int
  fees_per_day_sats : Rat
  swap_maturity : String
deriving Repr

/-- In-place update of the entry with key `a`, keeping its position
(Python `dict` item assignment on an existing key). -/
def updatePD {β : Type} (pd : List (String × β)) (a : String) (f : β → β) :
    List (String × β) :=
  match pd with
  | [] => []
  | (k, d) :: rest =>
    if k = a then (k, f d) :: rest else (k, d) :: updatePD rest a f

/-- The channel-age computation of the channel pass: if `channel_point` is
truthy, its part before the first colon is resolved, and a resolved
timestamp gives `(current_time_utc - tx_timestamp).total_seconds()` —
without clamping — while an unresolved one gives `0`. The resolver is
abstracted as an oracle `resolve` from txid to optional timestamp. -/
def channelAge (now : Int) (resolve : String → Option Int)
    (c : ChannelRecord) : Int :=
  match c.channel_point with
  | none => 0
  | some cp =>
    if cp = "" then 0
    else
      match resolve ((cp.splitOn ":").headD "") with
      | some ts => now - ts
      | none => 0

/-- One iteration of the channel pass: coerce the balance, compute the age,
then create or update the alias entry — first sighting stores the age and
balance with `is_open := true`; a later sighting keeps the maximum age,
re-asserts `is_open` and adds the balance. A falsy alias is skipped. -/
def processChannel (now : Int) (resolve : String → Option Int)
    (pd : List (String × PeerData)) (c : ChannelRecord) :
    List (String × PeerData) :=
  let local_balance := coerceInt c.local_balance
  let channel_age_seconds := channelAge now resolve c
  match aliasKey c.peer_alias with
  | none => pd
  | some a =>
    match lookupPD a pd with
    | none =>
      pd ++ [(a, { total_channel_age_seconds := channel_age_seconds,
                   forwards := 0, total_fees_msat := 0, is_open := true,
                   local_balance := local_balance,
                   fees_per_day_sats := 0, swap_maturity := "null" })]
    | some _ =>
      updatePD pd a fun d =>
        { d with
          total_channel_age_seconds :=
            if channel_age_seconds > d.total_channel_age_seconds then
              channel_age_seconds
            else d.total_channel_age_seconds,
          is_open := true,
          local_balance := d.local_balance + local_balance }

/-- The `peer_data[x]['forwards'] += 1; peer_data[x]['total_fees_msat'] +=
fee_msat` pair of the forwarding pass, creating the zeroed closed-peer
entry first when the key is new. -/
def addForward (pd : List (String × PeerData)) (a : String) (fee : Int) :
    List (String × PeerData) :=
  let pd1 :=
    match lookupPD a pd with
    | some _ => pd
    | none =>
      pd ++ [(a, { total_channel_age_seconds := 0, forwards := 0,
                   total_fees_msat := 0, is_open := false,
                   local_balance := 0, fees_per_day_sats := 0,
                   swap_maturity := "null" })]
  updatePD pd1 a fun d =>
    { d with forwards := d.forwards + 1,
             total_fees_msat := d.total_fees_msat + fee }

/-- One iteration of the forwarding pass: the inbound name is credited when
truthy; the outbound name is credited when truthy and different (as raw
values) from the inbound one. -/
def processEvent (pd : List (String × PeerData)) (e : ForwardingEvent) :
    List (String × PeerData) :=
  let fee_msat := coerceInt e.fee_msat
  let pd1 :=
    match aliasKey e.peer_alias_in with
    | some a => addForward pd a fee_msat
    | none => pd
  match e.peer_alias_out with
  | none => pd1
  | some o =>
    if o ≠ "" ∧ e.peer_alias_in ≠ some o then addForward pd1 o fee_msat
    else pd1

/-- Phase 1 over the whole channel list, starting from the empty
`peer_data`. -/
def channelPass (now : Int) (resolve : String → Option Int)
    (channels : List ChannelRecord) : List (String × PeerData) :=
  channels.foldl (processChannel now resolve) []

/-- Both aggregation passes: the channel pass followed by the forwarding
pass. The resulting association list is in key-insertion order, as a
Python `dict` is. -/
def aggregate (now : Int) (resolve : String → Option Int)
    (channels : List ChannelRecord) (events : List ForwardingEvent) :
    List (String × PeerData) :=
  events.foldl processEvent (channelPass now resolve channels)

example :
    (lookupPD "A" (channelPass 1000 (fun _ => some 200)
        [⟨some "A", some "t:0", some (.i 5)⟩,
         ⟨some "A", some "u:1", some (.i 7)⟩])).map
      (fun d => (d.total_channel_age_seconds, d.local_balance)) =
      some (800, 12) := rfl

example :
    (lookupPD "A" (aggregate 0 (fun _ => none) []
        [⟨some "A", some "A", some (.i 30)⟩])).map
      (fun d => (d.forwards, d.total_fees_msat, d.is_open)) =
      some (1, 30, false) := rfl

example :
    (lookupPD "B" (aggregate 0 (fun _ => none) []
        [⟨some "A", some "B", some (.i 30)⟩])).map
      (fun d => (d.forwards, d.total_fees_msat)) = some (1, 30) := rfl

/-- One entry of `sorted_peers`, the output rows before CSV formatting. -/
structure Row where
  peer_alias : String
  local_balance : Int
  forwards : Nat
  total_fees_earnt : Rat
  age_days : Rat
  fees_per_day : Rat
  fees_per_day_sats : Rat
  is_open : String
  swap_maturity : String
deriving Repr

/-- The metrics loop body: days from seconds, satoshi from milli-satoshi,
and the two guarded ratios — `fees_per_day` only when the age in days is
strictly positive, `fees_per_day_sats` only when the balance is strictly
positive, both defaulting to `0` otherwise. -/
def mkRow (x : String × PeerData) : Row :=
  let d := x.2
  let peer_local_balance : Int := d.local_balance
  let channel_age_days : Rat := (d.total_channel_age_seconds : Rat) / (60 * 60 * 24)
  let total_fees_earnt : Rat := (d.total_fees_msat : Rat) / 1000
  let fees_per_day : Rat :=
    if channel_age_days > 0 then total_fees_earnt / channel_age_days else 0
  let fees_per_day_sats : Rat :=
    if peer_local_balance > 0 then fees_per_day / (peer_local_balance : Rat)
    else 0
  { peer_alias := x.1, local_balance := peer_local_balance,
    forwards := d.forwards, total_fees_earnt := total_fees_earnt,
    age_days := channel_age_days, fees_per_day := fees_per_day,
    fees_per_day_sats := fees_per_day_sats,
    is_open := if d.is_open then "True" else "False",
    swap_maturity := "null" }

/-- Insertion step of a stable descending sort on `fees_per_day_sats`:
the inserted row goes before the first row whose key is not larger, so a
row never moves past an equal-keyed row that preceded it. -/
def insertDesc (x : Row) : List Row → List Row
  | [] => [x]
  | y :: ys =>
    if x.fees_per_day_sats ≥ y.fees_per_day_sats then x :: y :: ys
    else y :: insertDesc x ys

/-- Stable descending sort on `fees_per_day_sats`. A stable sort is
extensionally unique, so this insertion sort gives the same list as
`sorted_peers.sort(key=..., reverse=True)` (CPython sorts are stable and
`reverse=True` keeps equal-keyed elements in their original order). -/
def sortDesc : List Row → List Row
  | [] => []
  | x :: xs => insertDesc x (sortDesc xs)

/-- The metrics-and-ranking stage applied to an aggregation result: build
one row per peer in mapping order, then sort. -/
def rankRows (pd : List (String × PeerData)) : List Row :=
  sortDesc (pd.map mkRow)

example :
    ((rankRows [("A", ⟨0, 0, 0, true, 0, 0, "null"⟩),
                ("B", ⟨86400, 1, 2000, true, 4, 0, "null"⟩),
                ("C", ⟨0, 0, 0, false, 0, 0, "null"⟩)]).map
      (fun r => r.peer_alias)) = ["B", "A", "C"] := by
  norm_num [rankRows, mkRow, sortDesc, insertDesc]

example :
    (mkRow ("B", ⟨86400, 1, 2000, true, 4, 0, "null"⟩)).fees_per_day_sats =
      1 / 2 := by norm_num [mkRow]

/-- Helper: three consecutive transport failures drive the loop through all
three attempts, sleeping `2 ^ 0` and `2 ^ 1` between them, and end in
`None`. -/
theorem runAttempts_all_fail (svc : Nat → Resp) (h0 : svc 0 = .fail)
    (h1 : svc 1 = .fail) (h2 : svc 2 = .fail) :
    runAttempts svc 0 3 = ⟨.ok none, 3, [1, 2]⟩ := by
  simp [runAttempts, h0, h1, h2, max_retries]

/-- C6: on a cache miss with a persistently failing service, the resolver
performs exactly 3 attempts, sleeps `2 ^ 0 = 1` then `2 ^ 1 = 2` time units
between consecutive attempts, returns Unknown (`none`), and leaves the
cache unchanged. -/
theorem get_tx_timestamp_retry_exhaustion (txid : String)
    (cache : List (String × Int)) (svc : Nat → Resp)
    (hc : lookupPD txid cache = none) (h0 : svc 0 = .fail)
    (h1 : svc 1 = .fail) (h2 : svc 2 = .fail) :
    get_tx_timestamp txid cache svc = ⟨.ok none, cache, 3, [1, 2]⟩ := by
  simp [get_tx_timestamp, hc, max_retries, runAttempts_all_fail svc h0 h1 h2]

/-- Witness for C6 at a concrete input. -/
theorem get_tx_timestamp_retry_exhaustion_witness :
    lookupPD "t" ([] : List (String × Int)) = none ∧
    get_tx_timestamp "t" [] (fun _ => .fail) = ⟨.ok none, [], 3, [1, 2]⟩ :=
  ⟨rfl, get_tx_timestamp_retry_exhaustion "t" [] (fun _ => .fail)
    rfl rfl rfl rfl⟩

/-- C7 counterexample: a first response whose `status` field is present but
malformed (not a mapping) does not yield Unknown — the `.get` call raises
`AttributeError`, which escapes after 1 attempt. -/
theorem get_tx_timestamp_malformed_status_cex :
    get_tx_timestamp "t" [] (fun _ => .ok true .nonDict) =
      ⟨.error .attributeError, [], 1, []⟩ ∧
    (Except.error .attributeError : Except PyErr (Option Int)) ≠
      .ok none :=
  ⟨rfl, fun h => Except.noConfusion h⟩

/-- C7 amended: on a cache miss, when the first lookup succeeds and the
confirmation test evaluates (without raising) to false — the body is falsy,
the `status` key is missing, or `status` is a mapping whose `confirmed` is
falsy — the resolver returns Unknown after exactly 1 attempt, with no retry
and no sleep. -/
theorem get_tx_timestamp_unconfirmed_one_attempt (txid : String)
    (cache : List (String × Int)) (svc : Nat → Resp) (t : Bool)
    (st : StatusField) (hc : lookupPD txid cache = none)
    (h0 : svc 0 = .ok t st) (hu : condEval t st = .ok false) :
    get_tx_timestamp txid cache svc = ⟨.ok none, cache, 1, []⟩ := by
  simp [get_tx_timestamp, hc, runAttempts, max_retries, h0, hu]

/-- Witness for the amended C7 at a concrete input. -/
theorem get_tx_timestamp_unconfirmed_one_attempt_witness :
    lookupPD "t" ([] : List (String × Int)) = none ∧
    condEval true (.dict false none) = .ok false ∧
    get_tx_timestamp "t" [] (fun _ => .ok true (.dict false none)) =
      ⟨.ok none, [], 1, []⟩ :=
  ⟨rfl, rfl, get_tx_timestamp_unconfirmed_one_attempt "t" []
    (fun _ => .ok true (.dict false none)) true (.dict false none)
    rfl rfl rfl⟩

/-- C2: on a cache miss, a first response that reports the transaction
confirmed but carries no `block_time` field makes
`tx_data[s][b]` raise `KeyError`, which is not a
`requests.exceptions.RequestException` and escapes to the caller instead of
degrading to Unknown. -/
theorem get_tx_timestamp_confirmed_no_block_time_raises :
    get_tx_timestamp "t" [] (fun _ => .ok true (.dict true none)) =
      ⟨.error .keyError, [], 1, []⟩ ∧
    (Except.error .keyError : Except PyErr (Option Int)) ≠ .ok none :=
  ⟨rfl, fun h => Except.noConfusion h⟩

/-- C1 counterexample: with an uncached txid and a service that reports the
transaction unconfirmed, each of the two calls issues one external lookup —
two in total, refuting "at most one external lookup call in total
regardless of whether the first call resolved to a timestamp or to
Unknown". -/
theorem get_tx_timestamp_twice_two_calls_cex :
    (get_tx_timestamp "t" []
        (fun _ => .ok true (.dict false none))).result = .ok none ∧
    (get_tx_timestamp "t"
        (get_tx_timestamp "t" [] (fun _ => .ok true (.dict false none))).cache
        (fun _ => .ok true (.dict false none))).calls +
      (get_tx_timestamp "t" []
        (fun _ => .ok true (.dict false none))).calls = 2 :=
  ⟨rfl, rfl⟩

/-- C1 amended: when the first call resolved to a timestamp, that timestamp
was cached, so a second call for the same txid is a cache hit — it issues
no external call and returns the identical result. -/
theorem get_tx_timestamp_idempotent_on_success (txid : String)
    (cache : List (String × Int)) (svc : Nat → Resp) (t : Int)
    (h : (get_tx_timestamp txid cache svc).result = .ok (some t)) :
    (get_tx_timestamp txid (get_tx_timestamp txid cache svc).cache svc).calls
        = 0 ∧
    (get_tx_timestamp txid (get_tx_timestamp txid cache svc).cache svc).result
        = .ok (some t) := by
  unfold get_tx_timestamp at h ⊢
  cases hl : lookupPD txid cache with
  | some t0 =>
    simp [hl] at h ⊢
    simp [h]
  | none =>
    simp only [hl] at h ⊢
    cases hr : (runAttempts svc 0 max_retries).result with
    | ok v =>
      cases v with
      | some u =>
        simp [hr] at h ⊢
        simp [lookupPD, h]
      | none => simp [hr] at h
    | error e => simp [hr] at h

/-- Witness for the amended C1 at a concrete input. -/
theorem get_tx_timestamp_idempotent_on_success_witness :
    (get_tx_timestamp "t" []
        (fun _ => .ok true (.dict true (some 7)))).result = .ok (some 7) ∧
    (get_tx_timestamp "t"
        (get_tx_timestamp "t" [] (fun _ => .ok true (.dict true (some 7)))).cache
        (fun _ => .ok true (.dict true (some 7)))).calls = 0 ∧
    (get_tx_timestamp "t"
        (get_tx_timestamp "t" [] (fun _ => .ok true (.dict true (some 7)))).cache
        (fun _ => .ok true (.dict true (some 7)))).result = .ok (some 7) :=
  ⟨rfl,
    (get_tx_timestamp_idempotent_on_success "t" []
      (fun _ => .ok true (.dict true (some 7))) 7 rfl).1,
    (get_tx_timestamp_idempotent_on_success "t" []
      (fun _ => .ok true (.dict true (some 7))) 7 rfl).2⟩

/-- C10: a resolution that returns Unknown leaves the cache unchanged —
the cache is written only on the confirmed-success path — so a later call
for the same txid behaves exactly as the first did, repeating the external
lookup. -/
theorem get_tx_timestamp_no_cache_on_unknown (txid : String)
    (cache : List (String × Int)) (svc : Nat → Resp)
    (h : (get_tx_timestamp txid cache svc).result = .ok none) :
    (get_tx_timestamp txid cache svc).cache = cache ∧
    get_tx_timestamp txid (get_tx_timestamp txid cache svc).cache svc =
      get_tx_timestamp txid cache svc := by
  have hcache : (get_tx_timestamp txid cache svc).cache = cache := by
    unfold get_tx_timestamp at h ⊢
    cases hl : lookupPD txid cache with
    | some t0 => simp [hl]
    | none =>
      simp only [hl] at h ⊢
      cases hr : (runAttempts svc 0 max_retries).result with
      | ok v =>
        cases v with
        | some u => simp [hr] at h
        | none => simp [hr]
      | error e => simp [hr]
  exact ⟨hcache, by rw [hcache]⟩

/-- Witness for C10 at a concrete input. -/
theorem get_tx_timestamp_no_cache_on_unknown_witness :
    (get_tx_timestamp "t" []
        (fun _ => .ok true (.dict false none))).result = .ok none ∧
    (get_tx_timestamp "t" []
        (fun _ => .ok true (.dict false none))).cache = [] ∧
    get_tx_timestamp "t"
        (get_tx_timestamp "t" [] (fun _ => .ok true (.dict false none))).cache
        (fun _ => .ok true (.dict false none)) =
      get_tx_timestamp "t" [] (fun _ => .ok true (.dict false none)) :=
  ⟨rfl,
    (get_tx_timestamp_no_cache_on_unknown "t" []
      (fun _ => .ok true (.dict false none)) rfl).1,
    (get_tx_timestamp_no_cache_on_unknown "t" []
      (fun _ => .ok true (.dict false none)) rfl).2⟩

/-- C9: the derived metrics are total — an age that is not strictly
positive forces `fees_per_day = 0`, and a balance that is not strictly
positive forces `fees_per_day_sats = 0`; no division is attempted in those
cases. -/
theorem mkRow_division_guards (x : String × PeerData) :
    (¬ (mkRow x).age_days > 0 → (mkRow x).fees_per_day = 0) ∧
    (¬ (mkRow x).local_balance > 0 → (mkRow x).fees_per_day_sats = 0) := by
  constructor
  · intro h
    simp only [mkRow] at h ⊢
    rw [if_neg h]
  · intro h
    simp only [mkRow] at h ⊢
    rw [if_neg h]

/-- Witness for C9 at a zero-age, zero-balance peer. -/
theorem mkRow_division_guards_witness :
    (mkRow ("A", ⟨0, 0, 5000, true, 0, 0, "null"⟩)).fees_per_day = 0 ∧
    (mkRow ("A", ⟨0, 0, 5000, true, 0, 0, "null"⟩)).fees_per_day_sats = 0 :=
  ⟨(mkRow_division_guards ("A", ⟨0, 0, 5000, true, 0, 0, "null"⟩)).1
      (by norm_num [mkRow]),
   (mkRow_division_guards ("A", ⟨0, 0, 5000, true, 0, 0, "null"⟩)).2
      (by norm_num [mkRow])⟩

/-- Helper: lookup through an in-place update. -/
theorem lookupPD_updatePD {β : Type} (pd : List (String × β)) (k a : String)
    (f : β → β) :
    lookupPD a (updatePD pd k f) =
      if k = a then (lookupPD a pd).map f else lookupPD a pd := by
  induction pd with
  | nil => simp [updatePD, lookupPD]
  | cons hd tl ih =>
    obtain ⟨k0, d0⟩ := hd
    by_cases h0 : k0 = k
    · subst h0
      by_cases ha : k0 = a
      · subst ha
        simp [updatePD, lookupPD]
      · simp [updatePD, lookupPD, ha]
    · by_cases ha : k0 = a
      · subst ha
        have hk : ¬k = k0 := fun h => h0 h.symm
        simp [updatePD, lookupPD, h0, hk]
      · simp [updatePD, lookupPD, h0, ha, ih]

/-- Helper: lookup through appending a fresh entry, absent-key case. -/
theorem lookupPD_append_of_none {β : Type} (pd : List (String × β))
    (k a : String) (d : β) (h : lookupPD a pd = none) :
    lookupPD a (pd ++ [(k, d)]) = if k = a then some d else none := by
  induction pd with
  | nil => simp [lookupPD]
  | cons hd tl ih =>
    obtain ⟨k0, d0⟩ := hd
    by_cases ha : k0 = a
    · simp [lookupPD, ha] at h
    · simp only [lookupPD, ha, if_false, List.cons_append] at h ⊢
      simp [lookupPD, ha, ih h]

/-- Helper: lookup through appending a fresh entry, present-key case. -/
theorem lookupPD_append_of_some {β : Type} (pd : List (String × β))
    (k a : String) (d d0 : β) (h : lookupPD a pd = some d0) :
    lookupPD a (pd ++ [(k, d)]) = some d0 := by
  induction pd with
  | nil => simp [lookupPD] at h
  | cons hd tl ih =>
    obtain ⟨k1, d1⟩ := hd
    by_cases ha : k1 = a
    · simp [lookupPD, ha] at h ⊢
      exact h
    · simp only [lookupPD, ha, if_false, List.cons_append] at h ⊢
      simp [lookupPD, ha, ih h]

/-- The forward count recorded for `a`, 0 when `a` is not a key. -/
def forwardsOf (pd : List (String × PeerData)) (a : String) : Nat :=
  ((lookupPD a pd).map (fun d => d.forwards)).getD 0

/-- The fee total recorded for `a`, 0 when `a` is not a key. -/
def feesOf (pd : List (String × PeerData)) (a : String) : Int :=
  ((lookupPD a pd).map (fun d => d.total_fees_msat)).getD 0

/-- Helper: one `addForward` adds exactly 1 forward and one fee amount to
its key. -/
theorem addForward_self (pd : List (String × PeerData)) (a : String)
    (fee : Int) :
    forwardsOf (addForward pd a fee) a = forwardsOf pd a + 1 ∧
    feesOf (addForward pd a fee) a = feesOf pd a + fee := by
  unfold addForward
  cases hl : lookupPD a pd with
  | some d =>
    simp only [hl]
    constructor <;> simp [forwardsOf, feesOf, lookupPD_updatePD, hl]
  | none =>
    simp only [hl]
    constructor <;>
      simp [forwardsOf, feesOf, lookupPD_updatePD,
        lookupPD_append_of_none pd a a _ hl, hl]

/-- C5: a forwarding event whose inbound and outbound names are present,
non-empty and identical credits that counterparty exactly once — forward
count up by 1, fee total up by one coerced fee amount. -/
theorem processEvent_self_forward_once (pd : List (String × PeerData))
    (a : String) (f : Option IntLike) (h : a ≠ "") :
    forwardsOf (processEvent pd ⟨some a, some a, f⟩) a =
      forwardsOf pd a + 1 ∧
    feesOf (processEvent pd ⟨some a, some a, f⟩) a =
      feesOf pd a + coerceInt f := by
  have hpe : processEvent pd ⟨some a, some a, f⟩ =
      addForward pd a (coerceInt f) := by
    simp [processEvent, aliasKey, h]
  rw [hpe]
  exact addForward_self pd a (coerceInt f)

/-- Witness for C5 at a concrete self-forwarding event. -/
theorem processEvent_self_forward_once_witness :
    forwardsOf (processEvent [] ⟨some "A", some "A", some (.i 30)⟩) "A" =
      forwardsOf [] "A" + 1 ∧
    feesOf (processEvent [] ⟨some "A", some "A", some (.i 30)⟩) "A" =
      feesOf [] "A" + coerceInt (some (.i 30)) :=
  processEvent_self_forward_once [] "A" (some (.i 30)) (by decide)

/-- The per-channel ages the channel pass attributes to counterparty `a`,
in input order. -/
def agesFor (now : Int) (resolve : String → Option Int) (a : String)
    (cs : List ChannelRecord) : List Int :=
  (cs.filter (fun c => decide (aliasKey c.peer_alias = some a))).map
    (channelAge now resolve)

/-- Helper: a channel attributed to `a` contributes its age at the head. -/
theorem agesFor_cons_mem (now : Int) (resolve : String → Option Int)
    (a : String) (c : ChannelRecord) (cs : List ChannelRecord)
    (hm : aliasKey c.peer_alias = some a) :
    agesFor now resolve a (c :: cs) =
      channelAge now resolve c :: agesFor now resolve a cs := by
  simp [agesFor, List.filter_cons, hm]

/-- Helper: a channel not attributed to `a` contributes nothing. -/
theorem agesFor_cons_other (now : Int) (resolve : String → Option Int)
    (a : String) (c : ChannelRecord) (cs : List ChannelRecord)
    (hm : ¬aliasKey c.peer_alias = some a) :
    agesFor now resolve a (c :: cs) = agesFor now resolve a cs := by
  simp [agesFor, List.filter_cons, hm]

/-- Helper: appending an entry under a different key does not change a
lookup. -/
theorem lookupPD_append_other {β : Type} (pd : List (String × β))
    (k a : String) (d : β) (h : k ≠ a) :
    lookupPD a (pd ++ [(k, d)]) = lookupPD a pd := by
  induction pd with
  | nil => simp [lookupPD, h]
  | cons hd tl ih =>
    obtain ⟨k0, d0⟩ := hd
    by_cases ha : k0 = a
    · simp [lookupPD, ha]
    · simp [lookupPD, ha, ih]

/-- Helper: a channel with a different (or falsy) alias leaves `a`'s entry
untouched. -/
theorem lookupPD_processChannel_other (now : Int)
    (resolve : String → Option Int) (pd : List (String × PeerData))
    (c : ChannelRecord) (a : String)
    (h : aliasKey c.peer_alias ≠ some a) :
    lookupPD a (processChannel now resolve pd c) = lookupPD a pd := by
  unfold processChannel
  cases hk : aliasKey c.peer_alias with
  | none => rfl
  | some b =>
    have hb : b ≠ a := fun hba => h (hba ▸ hk)
    cases hl : lookupPD b pd with
    | none =>
      simp only [hl]
      simp [lookupPD_append_other pd b a _ hb]
    | some d0 =>
      simp only [hl]
      simp [lookupPD_updatePD, hb]

/-- Helper: the first channel sighting of `a` creates its entry with the
channel's age and balance. -/
theorem lookupPD_processChannel_new (now : Int)
    (resolve : String → Option Int) (pd : List (String × PeerData))
    (c : ChannelRecord) (a : String)
    (hm : aliasKey c.peer_alias = some a) (hl : lookupPD a pd = none) :
    lookupPD a (processChannel now resolve pd c) =
      some { total_channel_age_seconds := channelAge now resolve c,
             forwards := 0, total_fees_msat := 0, is_open := true,
             local_balance := coerceInt c.local_balance,
             fees_per_day_sats := 0, swap_maturity := "null" } := by
  unfold processChannel
  rw [hm]
  simp only [hl]
  rw [lookupPD_append_of_none pd a a _ hl]
  simp

/-- Helper: a later channel sighting of `a` keeps the running maximum age,
re-asserts openness and adds the balance. -/
theorem lookupPD_processChannel_upd (now : Int)
    (resolve : String → Option Int) (pd : List (String × PeerData))
    (c : ChannelRecord) (a : String) (d0 : PeerData)
    (hm : aliasKey c.peer_alias = some a) (hl : lookupPD a pd = some d0) :
    lookupPD a (processChannel now resolve pd c) =
      some { d0 with
        total_channel_age_seconds :=
          if channelAge now resolve c > d0.total_channel_age_seconds then
            channelAge now resolve c
          else d0.total_channel_age_seconds,
        is_open := true,
        local_balance := d0.local_balance + coerceInt c.local_balance } := by
  unfold processChannel
  rw [hm]
  simp only [hl]
  rw [lookupPD_updatePD]
  simp [hl]

/-- Helper: one channel-pass step never decreases the age recorded for an
existing key. -/
theorem processChannel_age_mono (now : Int) (resolve : String → Option Int)
    (pd : List (String × PeerData)) (c : ChannelRecord) (a : String)
    (d0 : PeerData) (hl : lookupPD a pd = some d0) :
    ∃ d1, lookupPD a (processChannel now resolve pd c) = some d1 ∧
      d0.total_channel_age_seconds ≤ d1.total_channel_age_seconds := by
  by_cases hm : aliasKey c.peer_alias = some a
  · refine ⟨_, lookupPD_processChannel_upd now resolve pd c a d0 hm hl, ?_⟩
    by_cases hgt :
        channelAge now resolve c > d0.total_channel_age_seconds
    · simp [hgt]
      exact le_of_lt hgt
    · simp [hgt]
  · exact ⟨d0, (lookupPD_processChannel_other now resolve pd c a hm).trans hl,
      le_refl _⟩

/-- Helper: the rest of the channel pass never decreases a recorded age. -/
theorem channelFold_age_mono (now : Int) (resolve : String → Option Int)
    (cs : List ChannelRecord) (pd : List (String × PeerData)) (a : String)
    (d0 : PeerData) (hl : lookupPD a pd = some d0) :
    ∃ d1, lookupPD a (cs.foldl (processChannel now resolve) pd) = some d1 ∧
      d0.total_channel_age_seconds ≤ d1.total_channel_age_seconds := by
  induction cs generalizing pd d0 with
  | nil => exact ⟨d0, hl, le_refl _⟩
  | cons c cs ih =>
    obtain ⟨d1, hl1, hle1⟩ := processChannel_age_mono now resolve pd c a d0 hl
    obtain ⟨d2, hl2, hle2⟩ := ih (processChannel now resolve pd c) d1 hl1
    exact ⟨d2, hl2, le_trans hle1 hle2⟩

/-- Helper: after a sighting of `a`, the recorded age is at least that
channel's age. -/
theorem processChannel_age_ge (now : Int) (resolve : String → Option Int)
    (pd : List (String × PeerData)) (c : ChannelRecord) (a : String)
    (hm : aliasKey c.peer_alias = some a) :
    ∃ d1, lookupPD a (processChannel now resolve pd c) = some d1 ∧
      channelAge now resolve c ≤ d1.total_channel_age_seconds := by
  cases hl : lookupPD a pd with
  | none =>
    exact ⟨_, lookupPD_processChannel_new now resolve pd c a hm hl, le_refl _⟩
  | some d0 =>
    refine ⟨_, lookupPD_processChannel_upd now resolve pd c a d0 hm hl, ?_⟩
    by_cases hgt : channelAge now resolve c > d0.total_channel_age_seconds
    · simp [hgt]
    · simp [hgt]
      exact le_of_not_lt hgt

/-- Helper: every age attributed to `a` by the channel list bounds the
final recorded age from below. -/
theorem channelFold_age_ub (now : Int) (resolve : String → Option Int)
    (cs : List ChannelRecord) (pd : List (String × PeerData)) (a : String)
    (d : PeerData)
    (h : lookupPD a (cs.foldl (processChannel now resolve) pd) = some d) :
    ∀ x ∈ agesFor now resolve a cs, x ≤ d.total_channel_age_seconds := by
  induction cs generalizing pd with
  | nil => simp [agesFor]
  | cons c cs ih =>
    intro x hx
    by_cases hm : aliasKey c.peer_alias = some a
    · rw [agesFor_cons_mem now resolve a c cs hm] at hx
      rcases List.mem_cons.mp hx with rfl | hx'
      · obtain ⟨d1, hl1, hge⟩ :=
          processChannel_age_ge now resolve pd c a hm
        obtain ⟨d2, hl2, hle⟩ :=
          channelFold_age_mono now resolve cs
            (processChannel now resolve pd c) a d1 hl1
        rw [List.foldl_cons] at h
        rw [h] at hl2
        cases hl2
        exact le_trans hge hle
      · exact ih (processChannel now resolve pd c) h x hx'
    · rw [agesFor_cons_other now resolve a c cs hm] at hx
      exact ih (processChannel now resolve pd c) h x hx

/-- Helper: the final recorded age is one of the attributed ages, unless it
was inherited unchanged from the initial table. -/
theorem channelFold_age_mem (now : Int) (resolve : String → Option Int)
    (cs : List ChannelRecord) (pd : List (String × PeerData)) (a : String)
    (d : PeerData)
    (h : lookupPD a (cs.foldl (processChannel now resolve) pd) = some d) :
    d.total_channel_age_seconds ∈ agesFor now resolve a cs ∨
      ∃ d0, lookupPD a pd = some d0 ∧
        d.total_channel_age_seconds = d0.total_channel_age_seconds := by
  induction cs generalizing pd with
  | nil => exact Or.inr ⟨d, h, rfl⟩
  | cons c cs ih =>
    rw [List.foldl_cons] at h
    rcases ih (processChannel now resolve pd c) h with hmem | ⟨d1, hl1, heq⟩
    · left
      by_cases hm : aliasKey c.peer_alias = some a
      · rw [agesFor_cons_mem now resolve a c cs hm]
        exact List.mem_cons_of_mem _ hmem
      · rw [agesFor_cons_other now resolve a c cs hm]
        exact hmem
    · by_cases hm : aliasKey c.peer_alias = some a
      · cases hl : lookupPD a pd with
        | none =>
          rw [lookupPD_processChannel_new now resolve pd c a hm hl] at hl1
          cases hl1
          left
          rw [agesFor_cons_mem now resolve a c cs hm, heq]
          exact List.mem_cons_self _ _
        | some d0 =>
          rw [lookupPD_processChannel_upd now resolve pd c a d0 hm hl] at hl1
          cases hl1
          by_cases hgt :
              channelAge now resolve c > d0.total_channel_age_seconds
          · left
            rw [agesFor_cons_mem now resolve a c cs hm, heq]
            simp [hgt]
          · right
            refine ⟨d0, rfl, ?_⟩
            rw [heq]
            simp [hgt]
      · right
        rw [lookupPD_processChannel_other now resolve pd c a hm] at hl1
        exact ⟨d1, hl1, heq⟩

/-- C3 amended: after the channel pass, the age recorded for a counterparty
equals the maximum of its per-channel ages, where a channel whose funding
transaction resolved contributes `now_utc − confirmationTime` — without
clamping at 0, so it may be negative — and an unresolved one contributes 0.
The recorded age is a member of that list and an upper bound of it. -/
theorem channelPass_age_is_max (now : Int) (resolve : String → Option Int)
    (cs : List ChannelRecord) (a : String) (d : PeerData)
    (h : lookupPD a (channelPass now resolve cs) = some d) :
    d.total_channel_age_seconds ∈ agesFor now resolve a cs ∧
    ∀ x ∈ agesFor now resolve a cs, x ≤ d.total_channel_age_seconds := by
  constructor
  · rcases channelFold_age_mem now resolve cs [] a d h with hmem | ⟨d0, h0, _⟩
    · exact hmem
    · exact absurd h0 (by simp [lookupPD])
  · exact channelFold_age_ub now resolve cs [] a d h

/-- C3 counterexample: a funding transaction whose confirmation time (200)
lies after the current time (100) is stored with the negative age
100 − 200 = −100, not 0 — the claimed `max(0, ...)` clamp does not exist in
the code. -/
theorem channelPass_negative_age_cex :
    (lookupPD "A" (channelPass 100 (fun _ => some 200)
        [⟨some "A", some "t:0", some (.i 5)⟩])).map
      (fun d => d.total_channel_age_seconds) = some (-100) ∧
    (-100 : Int) < 0 :=
  ⟨rfl, by decide⟩

/-- Witness for the amended C3 on two channels of one counterparty with
ages 800 and 0. -/
theorem channelPass_age_is_max_witness :
    (⟨800, 0, 0, true, 12, 0, "null"⟩ : PeerData).total_channel_age_seconds ∈
      agesFor 1000 (fun _ => some 200) "A"
        [⟨some "A", some "t:0", some (.i 5)⟩, ⟨some "A", none, some (.i 7)⟩] ∧
    (0 : Int) ≤
      (⟨800, 0, 0, true, 12, 0, "null"⟩ : PeerData).total_channel_age_seconds :=
  ⟨(channelPass_age_is_max 1000 (fun _ => some 200)
      [⟨some "A", some "t:0", some (.i 5)⟩, ⟨some "A", none, some (.i 7)⟩]
      "A" ⟨800, 0, 0, true, 12, 0, "null"⟩ rfl).1,
   (channelPass_age_is_max 1000 (fun _ => some 200)
      [⟨some "A", some "t:0", some (.i 5)⟩, ⟨some "A", none, some (.i 7)⟩]
      "A" ⟨800, 0, 0, true, 12, 0, "null"⟩ rfl).2 0
      (List.mem_cons_of_mem _ (List.mem_cons_self _ _))⟩

/-- Helper: an element of an updated table is an original element or the
image of one under the update. -/
theorem mem_updatePD {β : Type} (pd : List (String × β)) (k : String)
    (f : β → β) (p : String × β) (hp : p ∈ updatePD pd k f) :
    p ∈ pd ∨ ∃ q, q ∈ pd ∧ p = (q.1, f q.2) := by
  induction pd with
  | nil => simp [updatePD] at hp
  | cons hd tl ih =>
    obtain ⟨k0, d0⟩ := hd
    by_cases h0 : k0 = k
    · simp only [updatePD, if_pos h0] at hp
      rcases List.mem_cons.mp hp with rfl | htl
      · exact Or.inr ⟨(k0, d0), List.mem_cons_self _ _, rfl⟩
      · exact Or.inl (List.mem_cons_of_mem _ htl)
    · simp only [updatePD, if_neg h0] at hp
      rcases List.mem_cons.mp hp with rfl | htl
      · exact Or.inl (List.mem_cons_self _ _)
      · rcases ih htl with h | ⟨q, hq, rfl⟩
        · exact Or.inl (List.mem_cons_of_mem _ h)
        · exact Or.inr ⟨q, List.mem_cons_of_mem _ hq, rfl⟩

/-- Helper: a channel step with a non-negative coerced balance preserves
non-negative balances and fee totals across all entries. -/
theorem processChannel_nonneg (now : Int) (resolve : String → Option Int)
    (pd : List (String × PeerData)) (c : ChannelRecord)
    (hb : 0 ≤ coerceInt c.local_balance)
    (hpd : ∀ q ∈ pd,
      0 ≤ (q : String × PeerData).2.local_balance ∧
        0 ≤ q.2.total_fees_msat) :
    ∀ q ∈ processChannel now resolve pd c,
      0 ≤ q.2.local_balance ∧ 0 ≤ q.2.total_fees_msat := by
  intro q hq
  unfold processChannel at hq
  cases hk : aliasKey c.peer_alias with
  | none =>
    rw [hk] at hq
    exact hpd q hq
  | some a =>
    rw [hk] at hq
    dsimp only at hq
    cases hl : lookupPD a pd with
    | none =>
      rw [hl] at hq
      dsimp only at hq
      rcases List.mem_append.mp hq with h | h
      · exact hpd q h
      · rw [List.mem_singleton] at h
        subst h
        exact ⟨hb, le_refl 0⟩
    | some d0 =>
      rw [hl] at hq
      dsimp only at hq
      rcases mem_updatePD pd a _ q hq with h | ⟨q0, hq0, rfl⟩
      · exact hpd q h
      · obtain ⟨h1, h2⟩ := hpd q0 hq0
        exact ⟨add_nonneg h1 hb, h2⟩

/-- Helper: an `addForward` with a non-negative fee preserves non-negative
balances and fee totals across all entries. -/
theorem addForward_nonneg (pd : List (String × PeerData)) (a : String)
    (fee : Int) (hf : 0 ≤ fee)
    (hpd : ∀ q ∈ pd,
      0 ≤ (q : String × PeerData).2.local_balance ∧
        0 ≤ q.2.total_fees_msat) :
    ∀ q ∈ addForward pd a fee,
      0 ≤ q.2.local_balance ∧ 0 ≤ q.2.total_fees_msat := by
  intro q hq
  unfold addForward at hq
  cases hl : lookupPD a pd with
  | some d =>
    rw [hl] at hq
    rcases mem_updatePD pd a _ q hq with h | ⟨q0, hq0, rfl⟩
    · exact hpd q h
    · obtain ⟨h1, h2⟩ := hpd q0 hq0
      exact ⟨h1, add_nonneg h2 hf⟩
  | none =>
    rw [hl] at hq
    rcases mem_updatePD _ a _ q hq with h | ⟨q0, hq0, rfl⟩
    · rcases List.mem_append.mp h with h' | h'
      · exact hpd q h'
      · rw [List.mem_singleton] at h'
        subst h'
        exact ⟨le_refl 0, le_refl 0⟩
    · rcases List.mem_append.mp hq0 with h' | h'
      · obtain ⟨h1, h2⟩ := hpd q0 h'
        exact ⟨h1, add_nonneg h2 hf⟩
      · rw [List.mem_singleton] at h'
        subst h'
        exact ⟨le_refl 0, by simpa using hf⟩

/-- Helper: a forwarding step with a non-negative coerced fee preserves
non-negative balances and fee totals. -/
theorem processEvent_nonneg (pd : List (String × PeerData))
    (e : ForwardingEvent) (hf : 0 ≤ coerceInt e.fee_msat)
    (hpd : ∀ q ∈ pd,
      0 ≤ (q : String × PeerData).2.local_balance ∧
        0 ≤ q.2.total_fees_msat) :
    ∀ q ∈ processEvent pd e,
      0 ≤ q.2.local_balance ∧ 0 ≤ q.2.total_fees_msat := by
  unfold processEvent
  cases hk : aliasKey e.peer_alias_in with
  | none =>
    dsimp only
    cases e.peer_alias_out with
    | none => exact hpd
    | some o =>
      dsimp only
      by_cases hc : o ≠ "" ∧ e.peer_alias_in ≠ some o
      · rw [if_pos hc]
        exact addForward_nonneg pd o _ hf hpd
      · rw [if_neg hc]
        exact hpd
  | some a =>
    dsimp only
    have h1 := addForward_nonneg pd a _ hf hpd
    cases e.peer_alias_out with
    | none => exact h1
    | some o =>
      dsimp only
      by_cases hc : o ≠ "" ∧ e.peer_alias_in ≠ some o
      · rw [if_pos hc]
        exact addForward_nonneg _ o _ hf h1
      · rw [if_neg hc]
        exact h1

/-- C4 amended: both numeric fields are coerced with `int(...)` defaulting
to 0 on failure, but negative coerced values are not clamped; the
aggregate's balances and fee totals are non-negative provided every
coerced input value is non-negative. -/
theorem aggregate_nonneg (now : Int) (resolve : String → Option Int)
    (cs : List ChannelRecord) (es : List ForwardingEvent)
    (hc : ∀ c ∈ cs, 0 ≤ coerceInt (c : ChannelRecord).local_balance)
    (he : ∀ e ∈ es, 0 ≤ coerceInt (e : ForwardingEvent).fee_msat) :
    ∀ q ∈ aggregate now resolve cs es,
      0 ≤ (q : String × PeerData).2.local_balance ∧
        0 ≤ q.2.total_fees_msat := by
  have hchan :
      ∀ (cs' : List ChannelRecord) (pd : List (String × PeerData)),
        (∀ c ∈ cs', 0 ≤ coerceInt (c : ChannelRecord).local_balance) →
        (∀ q ∈ pd,
          0 ≤ (q : String × PeerData).2.local_balance ∧
            0 ≤ q.2.total_fees_msat) →
        ∀ q ∈ cs'.foldl (processChannel now resolve) pd,
          0 ≤ (q : String × PeerData).2.local_balance ∧
            0 ≤ q.2.total_fees_msat := by
    intro cs'
    induction cs' with
    | nil => intro pd _ hpd; exact hpd
    | cons c cs' ih =>
      intro pd hcs hpd
      exact ih (processChannel now resolve pd c)
        (fun c' hc' => hcs c' (List.mem_cons_of_mem _ hc'))
        (processChannel_nonneg now resolve pd c
          (hcs c (List.mem_cons_self _ _)) hpd)
  have hev :
      ∀ (es' : List ForwardingEvent) (pd : List (String × PeerData)),
        (∀ e ∈ es', 0 ≤ coerceInt (e : ForwardingEvent).fee_msat) →
        (∀ q ∈ pd,
          0 ≤ (q : String × PeerData).2.local_balance ∧
            0 ≤ q.2.total_fees_msat) →
        ∀ q ∈ es'.foldl processEvent pd,
          0 ≤ (q : String × PeerData).2.local_balance ∧
            0 ≤ q.2.total_fees_msat := by
    intro es'
    induction es' with
    | nil => intro pd _ hpd; exact hpd
    | cons e es' ih =>
      intro pd hes hpd
      exact ih (processEvent pd e)
        (fun e' he' => hes e' (List.mem_cons_of_mem _ he'))
        (processEvent_nonneg pd e (hes e (List.mem_cons_self _ _)) hpd)
  exact hev es (channelPass now resolve cs) he
    (hchan cs [] hc (by simp))

/-- C4 counterexample: `int(-5)` succeeds and is not clamped, so a channel
carrying a negative integer balance produces a PeerAggregate whose
localBalance is −5 < 0. -/
theorem aggregate_negative_balance_cex :
    (lookupPD "A" (aggregate 0 (fun _ => none)
        [⟨some "A", none, some (.i (-5))⟩] [])).map
      (fun d => d.local_balance) = some (-5) ∧ (-5 : Int) < 0 :=
  ⟨rfl, by decide⟩

/-- Witness for the amended C4 on one channel and one forwarding event
with non-negative inputs. -/
theorem aggregate_nonneg_witness :
    0 ≤ (⟨0, 1, 3, true, 5, 0, "null"⟩ : PeerData).local_balance ∧
    0 ≤ (⟨0, 1, 3, true, 5, 0, "null"⟩ : PeerData).total_fees_msat :=
  aggregate_nonneg 0 (fun _ => none) [⟨some "A", none, some (.i 5)⟩]
    [⟨some "A", some "B", some (.i 3)⟩]
    (by intro c hcm; rw [List.mem_singleton] at hcm; subst hcm; decide)
    (by intro e hem; rw [List.mem_singleton] at hem; subst hem; decide)
    ("A", ⟨0, 1, 3, true, 5, 0, "null"⟩) (List.mem_cons_self _ _)

/-- Helper: membership in an insertion. -/
theorem mem_insertDesc (x z : Row) (l : List Row) :
    z ∈ insertDesc x l ↔ z = x ∨ z ∈ l := by
  induction l with
  | nil => simp [insertDesc]
  | cons y ys ih =>
    simp only [insertDesc]
    by_cases h : x.fees_per_day_sats ≥ y.fees_per_day_sats
    · rw [if_pos h]
      simp [List.mem_cons]
    · rw [if_neg h]
      simp only [List.mem_cons, ih]
      tauto

/-- Helper: inserting keeps the list sorted by descending key. -/
theorem pairwise_insertDesc (x : Row) (l : List Row)
    (h : List.Pairwise
      (fun a b => b.fees_per_day_sats ≤ a.fees_per_day_sats) l) :
    List.Pairwise (fun a b => b.fees_per_day_sats ≤ a.fees_per_day_sats)
      (insertDesc x l) := by
  induction l with
  | nil => simp [insertDesc]
  | cons y ys ih =>
    rw [List.pairwise_cons] at h
    obtain ⟨hy, hys⟩ := h
    simp only [insertDesc]
    by_cases hge : x.fees_per_day_sats ≥ y.fees_per_day_sats
    · rw [if_pos hge]
      refine List.Pairwise.cons ?_ (List.Pairwise.cons hy hys)
      intro z hz
      rcases List.mem_cons.mp hz with rfl | hz'
      · exact hge
      · exact le_trans (hy z hz') hge
    · rw [if_neg hge]
      refine List.Pairwise.cons ?_ (ih hys)
      intro z hz
      rcases (mem_insertDesc x z ys).mp hz with rfl | hz'
      · exact le_of_not_le hge
      · exact hy z hz'

/-- Helper: the sort output is sorted by descending
`fees_per_day_sats`. -/
theorem pairwise_sortDesc (l : List Row) :
    List.Pairwise (fun a b => b.fees_per_day_sats ≤ a.fees_per_day_sats)
      (sortDesc l) := by
  induction l with
  | nil => exact List.Pairwise.nil
  | cons x xs ih => exact pairwise_insertDesc x (sortDesc xs) ih

/-- Helper: insertion is stable — the inserted row passes only rows with a
strictly larger key, so each equal-key class keeps its order. -/
theorem filter_insertDesc (x : Row) (l : List Row) (r : Rat) :
    (insertDesc x l).filter (fun row => decide (row.fees_per_day_sats = r)) =
      (x :: l).filter (fun row => decide (row.fees_per_day_sats = r)) := by
  induction l with
  | nil => rfl
  | cons y ys ih =>
    simp only [insertDesc]
    by_cases hge : x.fees_per_day_sats ≥ y.fees_per_day_sats
    · rw [if_pos hge]
    · rw [if_neg hge]
      by_cases hx : x.fees_per_day_sats = r
      · have hy : ¬y.fees_per_day_sats = r := fun hyr =>
          hge (le_of_eq (hyr.trans hx.symm))
        simp only [List.filter_cons, ih]
        simp [hx, hy]
      · simp only [List.filter_cons, ih]
        simp [hx]

/-- Helper: the whole sort is stable under filtering by any key value. -/
theorem filter_sortDesc (l : List Row) (r : Rat) :
    (sortDesc l).filter (fun row => decide (row.fees_per_day_sats = r)) =
      l.filter (fun row => decide (row.fees_per_day_sats = r)) := by
  induction l with
  | nil => rfl
  | cons x xs ih =>
    simp only [sortDesc]
    rw [filter_insertDesc]
    simp only [List.filter_cons, ih]

/-- C8: the ranking sorts the aggregate's rows by `fees_per_day_sats`
descending, and it is stable: for every ratio value, the rows holding that
value appear in exactly the order their names occupy in the aggregate
mapping, which lists counterparties in first-insertion order. -/
theorem rankRows_sorted_stable (now : Int) (resolve : String → Option Int)
    (cs : List ChannelRecord) (es : List ForwardingEvent) :
    List.Pairwise (fun a b =>
        (b : Row).fees_per_day_sats ≤ a.fees_per_day_sats)
      (rankRows (aggregate now resolve cs es)) ∧
    ∀ r : Rat,
      (rankRows (aggregate now resolve cs es)).filter
          (fun row => decide (row.fees_per_day_sats = r)) =
        ((aggregate now resolve cs es).map mkRow).filter
          (fun row => decide (row.fees_per_day_sats = r)) :=
  ⟨pairwise_sortDesc ((aggregate now resolve cs es).map mkRow),
   fun r => filter_sortDesc ((aggregate now resolve cs es).map mkRow) r⟩
